import Mathlib

/-!
Verification of the public-health dashboard core (trend detection, risk
classification, evidence aggregation, orchestration) and of the frontend
fetch-wrapper layer.

The detection/orchestration engine itself is not present under `src/`
(the repository ships only its documentation, its MCP tool contracts and a
captured output artifact `documents/data/dashboard.json`), so those
components are modelled from the specification, as flagged on each
definition.  The frontend API layer `src/src/common/api.js` is present and
is embedded directly.

Numeric values are rationals; dates/timestamps are integers (day index /
epoch day).  The natural logarithm used by the real detector is
transcendental, so the log transform is a parameter `lg : ℚ → ℚ` of the
model; every universal theorem below holds for an arbitrary `lg`, and
concrete evaluations instantiate it explicitly.
-/

/-! ## Data model (spec section 3) -/

/-- Modelled from the spec: `TimeSeriesPoint`
`(geo_value, time_value, value, stderr?, sample_size?)`; the detector code
that consumes it is absent from `src/`. -/
structure TimeSeriesPoint where
  geo_value : String
  time_value : ℤ
  value : ℚ
  stderrQ : Option ℚ
  sample_size : Option ℕ
deriving DecidableEq

/-- Modelled from the spec: `SignalSeries` owns an ordered sequence of
points tagged with signal metadata. -/
structure SignalSeries where
  signal_name : String
  geo_type : String
  geo_values : List String
  points : List TimeSeriesPoint
deriving DecidableEq

/-- Modelled from the spec: one regression fit over a sliding window
(`TrendWindow`); `stop` is the spec's `end` (a Lean keyword). -/
structure TrendWindow where
  start : ℤ
  stop : ℤ
  log_slope : ℚ
deriving DecidableEq

/-- Modelled from the spec: `RisingPeriod { start, end }`; `stop` is the
spec's `end`. -/
structure RisingPeriod where
  start : ℤ
  stop : ℤ
deriving DecidableEq

/-- Modelled from the spec: status enum of a `TrendAnalysisResult`. -/
inductive TrendStatus where
  | success
  | insufficient_data
  | error
deriving DecidableEq

/-- Modelled from the spec: `TrendAnalysisResult`. -/
structure TrendAnalysisResult where
  signal_name : String
  rising_periods : List RisingPeriod
  total_periods : ℕ
  sample_log_slopes : List ℚ
  status : TrendStatus
deriving DecidableEq

/-! ## RollingTrendDetector (spec section 4.1) -/

/-- Modelled from the spec: ordinary least-squares slope of `ys` against
the time index `0, 1, ...`.  For fewer than two points the denominator is
zero and the rational convention `x / 0 = 0` applies (the contract demands
`window_size ≥ 2`, so such windows do not arise in the claims). -/
def olsSlope (ys : List ℚ) : ℚ :=
  let n : ℕ := ys.length
  let xbar : ℚ := ((n : ℚ) - 1) / 2
  let ybar : ℚ := ys.sum / (n : ℚ)
  let num : ℚ := (((List.range n).zip ys).map
    (fun p => ((p.1 : ℚ) - xbar) * (p.2 - ybar))).sum
  let den : ℚ := ((List.range n).map (fun x => ((x : ℚ) - xbar) ^ 2)).sum
  num / den

/-- Modelled from the spec: centered moving average with radius `r`
around index `i`, truncated at the series boundaries. -/
def smoothAt (vals : List ℚ) (r i : ℕ) : ℚ :=
  let lo : ℕ := i - r
  let hi : ℕ := min (i + r) (vals.length - 1)
  let seg : List ℚ := (vals.drop lo).take (hi + 1 - lo)
  seg.sum / (seg.length : ℚ)

/-- Modelled from the spec: step 1, optional centered moving average of
window `sw` (the default in the spec is 3). -/
def smoothVals (sw : ℕ) (vals : List ℚ) : List ℚ :=
  (List.range vals.length).map (smoothAt vals ((sw - 1) / 2))

/-- Modelled from the spec: the window at position `i` spans points
`i .. i + ws - 1`; its `start`/`stop` are the timestamps of its first and
last point and its `log_slope` the OLS fit over its log values. -/
def detWindow (times : List ℤ) (logs : List ℚ) (ws i : ℕ) : TrendWindow :=
  { start := times.getD i 0
    stop := times.getD (i + ws - 1) 0
    log_slope := olsSlope ((logs.drop i).take ws) }

/-- Modelled from the spec: step 3, slide a window of `ws` consecutive
points across the series with step 1; `len + 1 - ws` window positions. -/
def detWindows (times : List ℤ) (logs : List ℚ) (ws : ℕ) : List TrendWindow :=
  (List.range (times.length + 1 - ws)).map (detWindow times logs ws)

/-- Modelled from the spec: step 5, single left-to-right pass merging
consecutive rising windows; `acc` is the period currently being grown. -/
def mergeAux : Option RisingPeriod → List (TrendWindow × Bool) → List RisingPeriod
  | none, [] => []
  | some p, [] => [p]
  | none, (w, true) :: rest => mergeAux (some ⟨w.start, w.stop⟩) rest
  | none, (_, false) :: rest => mergeAux none rest
  | some p, (w, true) :: rest => mergeAux (some ⟨p.start, w.stop⟩) rest
  | some p, (_, false) :: rest => p :: mergeAux none rest

/-- Modelled from the spec: merge consecutive rising windows into
`RisingPeriod`s (the Bool flags mark rising windows). -/
def mergePeriods (l : List (TrendWindow × Bool)) : List RisingPeriod :=
  mergeAux none l

/-- Declarative counterpart of the merge pass: the maximal runs of `true`
in a flag list, as inclusive index ranges.  `i` is the index of the head
of the remaining list and `rc` the run currently open. -/
def runsAux : ℕ → Option (ℕ × ℕ) → List Bool → List (ℕ × ℕ)
  | _, none, [] => []
  | _, some ab, [] => [ab]
  | i, none, true :: rest => runsAux (i + 1) (some (i, i)) rest
  | i, none, false :: rest => runsAux (i + 1) none rest
  | i, some ab, true :: rest => runsAux (i + 1) (some (ab.1, i)) rest
  | i, some ab, false :: rest => ab :: runsAux (i + 1) none rest

/-- Maximal runs of `true` in a Bool list, as inclusive index ranges. -/
def trueRuns (l : List Bool) : List (ℕ × ℕ) :=
  runsAux 0 none l

/-- Timestamps of a series, in order. -/
def detTimes (series : SignalSeries) : List ℤ :=
  series.points.map (fun p => p.time_value)

/-- Modelled from the spec: steps 1-2, optional smoothing followed by the
log transform `lg (max value eps)` (values below the floor `eps` are
clamped to it, not discarded). -/
def detLogs (lg : ℚ → ℚ) (eps : ℚ) (smoothing : Bool) (sw : ℕ)
    (series : SignalSeries) : List ℚ :=
  let vals0 : List ℚ := series.points.map (fun p => p.value)
  let vals : List ℚ := if smoothing then smoothVals sw vals0 else vals0
  vals.map (fun v => lg (max v eps))

/-- The evaluated windows of a detection run. -/
def detWins (lg : ℚ → ℚ) (eps : ℚ) (smoothing : Bool) (sw : ℕ)
    (series : SignalSeries) (ws : ℕ) : List TrendWindow :=
  detWindows (detTimes series) (detLogs lg eps smoothing sw series) ws

/-- Modelled from the spec: step 4, a window is rising iff
`log_slope ≥ min_log_slope`. -/
def detFlags (lg : ℚ → ℚ) (eps : ℚ) (smoothing : Bool) (sw : ℕ)
    (series : SignalSeries) (ws : ℕ) (ms : ℚ) : List Bool :=
  (detWins lg eps smoothing sw series ws).map (fun w => decide (ms ≤ w.log_slope))

/-- Modelled from the spec: `RollingTrendDetector.detect`.  `lg` is the
abstract log transform, `eps` the positive floor, `sw` the smoothing
window; the contract arguments are `series`, `ws` (`window_size`),
`ms` (`min_log_slope`) and `smoothing`.  Insufficient data (zero windows)
is reported before input validation, matching the spec's universal
property "for all series shorter than `window_size`,
`status == insufficient_data`"; otherwise non-ascending or duplicate
timestamps are rejected with `status = error`. -/
def detect (lg : ℚ → ℚ) (eps : ℚ) (sw : ℕ) (series : SignalSeries)
    (ws : ℕ) (ms : ℚ) (smoothing : Bool) : TrendAnalysisResult :=
  let times := detTimes series
  let wins := detWins lg eps smoothing sw series ws
  let flags := detFlags lg eps smoothing sw series ws ms
  let valid : Bool := decide (List.Chain' (fun a b => a < b) times)
  { signal_name := series.signal_name
    rising_periods := if valid then mergePeriods (wins.zip flags) else []
    total_periods := wins.length
    sample_log_slopes := wins.map (fun w => w.log_slope)
    status :=
      if wins.length = 0 then .insufficient_data
      else if valid then .success else .error }

/-! ## RiskClassifier (spec section 4.2) -/

/-- Modelled from the spec: risk levels, ordered
`high > medium > low > unknown`. -/
inductive RiskLevel where
  | low
  | medium
  | high
  | unknown
deriving DecidableEq

/-- Numeric rank of a risk level for the maximum in aggregation. -/
def riskRank : RiskLevel → ℕ
  | .unknown => 0
  | .low => 1
  | .medium => 2
  | .high => 3

/-- Modelled from the spec: the length contributed by one `RisingPeriod`
to the rising ratio (inclusive day span of the period). -/
def periodLen (p : RisingPeriod) : ℚ :=
  ((p.stop - p.start + 1 : ℤ) : ℚ)

/-- Modelled from the spec:
`rising_ratio = sum(len(period) for period in rising_periods) / max(total_periods, 1)`. -/
def rising_ratio (r : TrendAnalysisResult) : ℚ :=
  ((r.rising_periods.map periodLen).sum) / ((max r.total_periods 1 : ℕ) : ℚ)

/-- Modelled from the spec: `RiskClassifier.classify`, a pure function of
the result; thresholds `ratio ≥ 0.7 → high`, `0.3 ≤ ratio < 0.7 → medium`,
`ratio < 0.3 → low`, and `status != success → unknown`. -/
def classify (r : TrendAnalysisResult) : RiskLevel × ℚ :=
  let ratio := rising_ratio r
  let level : RiskLevel :=
    if r.status ≠ .success then .unknown
    else if 7 / 10 ≤ ratio then .high
    else if 3 / 10 ≤ ratio then .medium
    else .low
  (level, ratio)

/-! ## EvidenceAggregator / AlertSynthesizer (spec section 4.3) -/

/-- Modelled from the spec: one classified entry
`(signal, TrendAnalysisResult, risk_level)` accumulated during a run;
`fetched_ok` records whether the underlying signal fetch succeeded. -/
structure EvidenceRecord where
  signal_name : String
  fetched_ok : Bool
  result : TrendAnalysisResult
  risk : RiskLevel
deriving DecidableEq

/-- Modelled from the spec: `key_risk_factors` is the list of signal names
whose individual risk level is `high`, in discovery order, with no
de-duplication. -/
def keyRiskFactors (rs : List EvidenceRecord) : List String :=
  (rs.filter (fun r => r.risk = .high)).map (fun r => r.signal_name)

/-- Modelled from the spec: overall risk is the maximum observed level
unless fewer than `minSignals` records are available. -/
def overallRisk (minSignals : ℕ) (rs : List EvidenceRecord) : RiskLevel :=
  if rs.length < minSignals then .unknown
  else rs.foldl (fun acc r => if riskRank acc < riskRank r.risk then r.risk else acc) .unknown

/-- Modelled from the spec: a tool's textual output either parses back to
a specific signal name or it does not. -/
inductive ToolOutput where
  | parsed (signal_name : String) (result : TrendAnalysisResult)
  | unparsable (raw : String)

/-- Modelled from the spec: the strict parse-or-reject step at the
orchestration boundary.  Output that cannot be mapped to a signal is
recorded under the placeholder `"unknown_signal"` with `status = error`
rather than dropped or raised. -/
def recordOutput : ToolOutput → TrendAnalysisResult
  | .parsed n r => { r with signal_name := n }
  | .unparsable _ =>
      { signal_name := "unknown_signal"
        rising_periods := []
        total_periods := 0
        sample_log_slopes := []
        status := .error }

/-- Every tool output is recorded; none is dropped. -/
def recordOutputs (l : List ToolOutput) : List TrendAnalysisResult :=
  l.map recordOutput

/-- Modelled from the spec: `Alert` (the `id` is assigned by the external
record store, out of scope). -/
structure Alert where
  name : String
  description : String
  risk_score : ℕ
  risk_reason : String
  location : String
  latitude : String
  longitude : String
deriving DecidableEq

/-- Modelled from the spec: `risk_score` mapped linearly from the rising
ratio, `round (ratio * 10)` clamped to `1..10`. -/
def riskScore (ratio : ℚ) : ℕ :=
  min 10 (max 1 (round (ratio * 10)).toNat)

/-- Modelled from the spec: one alert per `high`/`medium` signal (the
geographic grouping and de-duplication of candidate alerts are not
load-bearing for any claim and are omitted). -/
def synthAlerts (rs : List EvidenceRecord) : List Alert :=
  rs.filterMap (fun r =>
    if r.risk = .high ∨ r.risk = .medium then
      some { name := r.signal_name
             description := "rising trend detected"
             risk_score := riskScore (classify r.result).2
             risk_reason := "rising ratio threshold exceeded"
             location := "requested geography"
             latitude := ""
             longitude := "" }
    else none)

/-- Modelled from the spec: recommendation priorities. -/
inductive RecPriority where
  | urgent
  | high
  | medium
  | low
deriving DecidableEq

/-- Modelled from the spec: `Recommendation`. -/
structure Recommendation where
  priority : RecPriority
  action : String
  target_audience : String
  timeframe : String
deriving DecidableEq

/-- Modelled from the spec: any `high` risk level yields one urgent/high
recommendation, otherwise a medium "continue monitoring" one. -/
def recommendationsOf (rs : List EvidenceRecord) : List Recommendation :=
  if rs.any (fun r => r.risk = .high) then
    [{ priority := .high
       action := "enhanced surveillance for rising trends"
       target_audience := "public health officials"
       timeframe := "immediate" }]
  else
    [{ priority := .medium
       action := "continue monitoring epidemiological indicators"
       target_audience := "epidemiologists"
       timeframe := "ongoing" }]

/-- Modelled from the spec: `RiskAssessment`. -/
structure RiskAssessment where
  overall_risk_level : RiskLevel
  confidence_level : String
  key_risk_factors : List String
  geographic_distribution : String
  trend_trajectory : String
deriving DecidableEq

/-- Modelled from the spec: the terminal `DashboardReport` aggregate. -/
structure DashboardReport where
  success : Bool
  alerts : List Alert
  rising_trends : List TrendAnalysisResult
  risk_assessment : RiskAssessment
  recommendations : List Recommendation
  tools_used : List String
  error : Option String
deriving DecidableEq

/-- Modelled from the spec: FINALIZING calls the aggregator over all
accumulated evidence and constructs the single terminal report; the
failed-report path (`success = false`, populated `error`) is taken exactly
when no signal could be fetched at all. -/
def mkReport (rs : List EvidenceRecord) : DashboardReport :=
  { success := rs.any (fun r => r.fetched_ok)
    alerts := synthAlerts rs
    rising_trends := rs.map (fun r => r.result)
    risk_assessment :=
      { overall_risk_level := overallRisk 1 rs
        confidence_level := "medium"
        key_risk_factors := keyRiskFactors rs
        geographic_distribution := "requested geography"
        trend_trajectory := "mixed" }
    recommendations := recommendationsOf rs
    tools_used := rs.map (fun _ => "fetch_epi_signal") ++ rs.map (fun _ => "detect_rising_trend")
    error := if rs.any (fun r => r.fetched_ok) then none
             else some "no signals could be fetched" }

/-! ## DashboardOrchestrator state machine (spec section 4.4) -/

/-- Modelled from the spec: orchestration phases. -/
inductive Phase where
  | init
  | planning
  | fetching
  | analyzing
  | finalizing
  | done
  | error
deriving DecidableEq

/-- Modelled from the spec (section 9): the planner capability
`decide_next_action(evidence_so_far) -> Action` with variants
fetch-signals / finalize. -/
inductive PlanAction where
  | fetchSignals (names : List String)
  | finalize

/-- Configuration of one orchestration run: the pluggable planner, the
signal repository oracle (`none` models a per-signal fetch failure such as
a timeout or malformed response), the iteration budget and the detector
parameters. -/
structure OrchConfig where
  planner : List EvidenceRecord → PlanAction
  oracle : String → Option SignalSeries
  maxIter : ℕ
  lg : ℚ → ℚ
  eps : ℚ
  sw : ℕ
  ws : ℕ
  ms : ℚ
  smoothing : Bool

/-- Modelled from the spec: the orchestration state owned by one run —
current phase, iteration counter, signals chosen by PLANNING, raw fetch
outcomes awaiting ANALYZING, append-only evidence, and the terminal
report. -/
structure OrchState where
  phase : Phase
  iters : ℕ
  pending : List String
  fresh : List (String × Option SignalSeries)
  evidence : List EvidenceRecord
  report : Option DashboardReport
deriving DecidableEq

/-- The initial state of a run. -/
def orchInit : OrchState :=
  { phase := .init, iters := 0, pending := [], fresh := [],
    evidence := [], report := none }

/-- Modelled from the spec: ANALYZING invokes the detector and classifier
on each freshly fetched signal; a failed fetch is recorded with
`status = error` and is never fatal (its risk is `unknown`, which is what
`classify` returns on every non-success status). -/
def analyzeRecord (cfg : OrchConfig) : String × Option SignalSeries → EvidenceRecord
  | (nm, none) =>
      { signal_name := nm, fetched_ok := false
        result := { signal_name := nm, rising_periods := [], total_periods := 0,
                    sample_log_slopes := [], status := .error }
        risk := .unknown }
  | (nm, some series) =>
      let res := detect cfg.lg cfg.eps cfg.sw series cfg.ws cfg.ms cfg.smoothing
      { signal_name := nm, fetched_ok := true, result := res,
        risk := (classify res).1 }

/-- Modelled from the spec: one transition of the orchestration state
machine.  PLANNING enforces the iteration budget; FETCHING records
per-signal outcomes and always continues; after ANALYZING the machine
returns to PLANNING unless the budget is exhausted; FINALIZING emits the
single report and moves to the terminal DONE (or ERROR when no signal
could be fetched at all); DONE and ERROR are absorbing. -/
def orchStep (cfg : OrchConfig) (s : OrchState) : OrchState :=
  match s.phase with
  | .init => { s with phase := .planning }
  | .planning =>
      if cfg.maxIter ≤ s.iters then { s with phase := .finalizing }
      else
        match cfg.planner s.evidence with
        | .finalize => { s with phase := .finalizing }
        | .fetchSignals ns => { s with phase := .fetching, pending := ns }
  | .fetching =>
      { s with phase := .analyzing,
               fresh := s.pending.map (fun nm => (nm, cfg.oracle nm)),
               pending := [] }
  | .analyzing =>
      let recs := s.fresh.map (analyzeRecord cfg)
      let it := s.iters + 1
      { s with phase := if cfg.maxIter ≤ it then .finalizing else .planning,
               iters := it,
               evidence := s.evidence ++ recs,
               fresh := [] }
  | .finalizing =>
      let rep := mkReport s.evidence
      { s with report := some rep,
               phase := if rep.success then .done else .error }
  | .done => s
  | .error => s

/-- The trace of a run: the state after `n` transitions. -/
def orchTrace (cfg : OrchConfig) (n : ℕ) : OrchState :=
  (orchStep cfg)^[n] orchInit

/-- A state is terminal iff it is DONE or ERROR. -/
def Terminal (s : OrchState) : Prop :=
  s.phase = .done ∨ s.phase = .error

instance (s : OrchState) : Decidable (Terminal s) := by
  unfold Terminal; infer_instance

/-! ## Frontend API layer, embedded from `src/src/common/api.js` -/

/-- A decoded JSON value as produced by `response.json()`. -/
inductive JVal where
  | jarr : List JVal → JVal
  | jobj : List (String × JVal) → JVal
  | jstr : String → JVal
  | jnum : ℚ → JVal
  | jbool : Bool → JVal
  | jnull

/-- The fate of one HTTP request issued by a wrapper: whether the
`fetch(...)` promise resolves (`httpOk`), whether `response.json()`
resolves (`jsonOk`), and the decoded body when it does. -/
structure FetchEnv where
  httpOk : Bool
  jsonOk : Bool
  body : JVal

/-- Outcome of an `async` JavaScript function: its returned promise either
resolves with a value or rejects. -/
inductive JsOutcome (α : Type) where
  | resolved : α → JsOutcome α
  | rejected : JsOutcome α

/-- `fetchAlerts` from `src/src/common/api.js`: `await fetch`, then
`const data = await response.json()` inside the `try`; the `catch`
returns `[]`, so both a transport failure and a JSON-decoding failure
resolve to the empty array. -/
def fetchAlerts (env : FetchEnv) : JsOutcome JVal :=
  if env.httpOk then
    if env.jsonOk then .resolved env.body else .resolved (.jarr [])
  else .resolved (.jarr [])

/-- `fetchAlert` from `src/src/common/api.js`: same shape as `fetchAlerts`
but the `catch` returns `{}`. -/
def fetchAlert (alert_id : String) (env : FetchEnv) : JsOutcome JVal :=
  let _ := alert_id
  if env.httpOk then
    if env.jsonOk then .resolved env.body else .resolved (.jobj [])
  else .resolved (.jobj [])

/-- `createAlert` from `src/src/common/api.js`: the body ends with
`return response.json();` — the promise is returned from inside the `try`
WITHOUT `await`, so a rejection of `response.json()` is not caught and the
wrapper's own promise rejects; only a failure of the awaited `fetch`
itself reaches the `catch`, which returns `{}`. -/
def createAlert (env : FetchEnv) : JsOutcome JVal :=
  if env.httpOk then
    if env.jsonOk then .resolved env.body else .rejected
  else .resolved (.jobj [])

/-- `fetchStrategiesByAlert` from `src/src/common/api.js`: awaited
`response.json()`, `catch` returns `[]`. -/
def fetchStrategiesByAlert (alert_id : String) (env : FetchEnv) : JsOutcome JVal :=
  let _ := alert_id
  if env.httpOk then
    if env.jsonOk then .resolved env.body else .resolved (.jarr [])
  else .resolved (.jarr [])

/-- `generateStrategiesByAlert` from `src/src/common/api.js`: awaited
`response.json()`, `catch` returns `[]`. -/
def generateStrategiesByAlert (alert_id : String) (env : FetchEnv) : JsOutcome JVal :=
  let _ := alert_id
  if env.httpOk then
    if env.jsonOk then .resolved env.body else .resolved (.jarr [])
  else .resolved (.jarr [])

/-- `generatePolicyFromStrategy` from `src/src/common/api.js`: awaited
`response.json()`, `catch` returns `{}`. -/
def generatePolicyFromStrategy (strategy_id : String) (env : FetchEnv) : JsOutcome JVal :=
  let _ := strategy_id
  if env.httpOk then
    if env.jsonOk then .resolved env.body else .resolved (.jobj [])
  else .resolved (.jobj [])

/-- `fetchApprovedPolicies` from `src/src/common/api.js`: awaited
`response.json()`, `catch` returns `[]`. -/
def fetchApprovedPolicies (env : FetchEnv) : JsOutcome JVal :=
  if env.httpOk then
    if env.jsonOk then .resolved env.body else .resolved (.jarr [])
  else .resolved (.jarr [])

/-- `fetchDraftPolicies` from `src/src/common/api.js`: awaited
`response.json()`, `catch` returns `[]`. -/
def fetchDraftPolicies (env : FetchEnv) : JsOutcome JVal :=
  if env.httpOk then
    if env.jsonOk then .resolved env.body else .resolved (.jarr [])
  else .resolved (.jarr [])

/-- `fetchApprovedPoliciesByAlert` from `src/src/common/api.js`: awaited
`response.json()`, `catch` returns `[]`. -/
def fetchApprovedPoliciesByAlert (alert_id : String) (env : FetchEnv) : JsOutcome JVal :=
  let _ := alert_id
  if env.httpOk then
    if env.jsonOk then .resolved env.body else .resolved (.jarr [])
  else .resolved (.jarr [])

/-- `updatePolicy` from `src/src/common/api.js`: like `createAlert`, ends
with un-awaited `return response.json();` inside the `try`, so a
JSON-decoding failure rejects; a transport failure returns `{}`. -/
def updatePolicy (env : FetchEnv) : JsOutcome JVal :=
  if env.httpOk then
    if env.jsonOk then .resolved env.body else .rejected
  else .resolved (.jobj [])

/-- `fetchSummary` from `src/src/common/api.js`: awaited
`response.json()`, `catch` returns `[]`. -/
def fetchSummary (env : FetchEnv) : JsOutcome JVal :=
  if env.httpOk then
    if env.jsonOk then .resolved env.body else .resolved (.jarr [])
  else .resolved (.jarr [])

/-! ## Concrete fixtures used by boundary conjuncts and witnesses -/

/-- A 5-point strictly rising series (times 0..4, values 1..5). -/
def c1Series : SignalSeries :=
  { signal_name := "confirmed_7dav_incidence_prop"
    geo_type := "state"
    geo_values := ["ny"]
    points :=
      [ { geo_value := "ny", time_value := 0, value := 1, stderrQ := none, sample_size := none }
      , { geo_value := "ny", time_value := 1, value := 2, stderrQ := none, sample_size := none }
      , { geo_value := "ny", time_value := 2, value := 3, stderrQ := none, sample_size := none }
      , { geo_value := "ny", time_value := 3, value := 4, stderrQ := none, sample_size := none }
      , { geo_value := "ny", time_value := 4, value := 5, stderrQ := none, sample_size := none } ] }

/-- A successful result whose rising ratio is exactly `0.7`
(one period of length 7 out of 10 windows). -/
def r07 : TrendAnalysisResult :=
  { signal_name := "smoothed_wcli"
    rising_periods := [⟨1, 7⟩]
    total_periods := 10
    sample_log_slopes := []
    status := .success }

/-- A successful result whose rising ratio is exactly `0.6999`
(one period of length 6999 out of 10000 windows). -/
def r06999 : TrendAnalysisResult :=
  { signal_name := "smoothed_wcli"
    rising_periods := [⟨0, 6998⟩]
    total_periods := 10000
    sample_log_slopes := []
    status := .success }

/-- An aggregator input row carrying the `"unknown_signal"` placeholder
produced by the parse-failure path, classified `high` upstream (as in the
captured `dashboard.json` artifact). -/
def unknownRec : EvidenceRecord :=
  { signal_name := "unknown_signal"
    fetched_ok := true
    result := recordOutput (.unparsable "raw tool text")
    risk := .high }

/-! ## Claim theorems -/

/-- Length of the evaluated window list. -/
theorem detWins_length (lg : ℚ → ℚ) (eps : ℚ) (smoothing : Bool) (sw : ℕ)
    (series : SignalSeries) (ws : ℕ) :
    (detWins lg eps smoothing sw series ws).length = series.points.length + 1 - ws := by
  simp [detWins, detWindows, detTimes]

/-- C1: for every `SignalSeries` and every `window_size ≥ 2`,
`total_periods` returned by `detect` equals the number of sliding windows
evaluated, that is `len(series) - window_size + 1` clamped to a minimum of
0; and (concrete instance) it is not the number of rising periods found:
on `c1Series` with `window_size = 2` there are 4 windows but a single
merged rising period. -/
theorem C1_total_periods_counts_windows :
    (∀ (lg : ℚ → ℚ) (eps : ℚ) (sw : ℕ) (series : SignalSeries) (ws : ℕ)
       (ms : ℚ) (smoothing : Bool), 2 ≤ ws →
      ((detect lg eps sw series ws ms smoothing).total_periods : ℤ)
        = max ((series.points.length : ℤ) - ws + 1) 0) ∧
    (detect id 0 3 c1Series 2 (1/2) false).total_periods = 4 ∧
    (detect id 0 3 c1Series 2 (1/2) false).rising_periods.length = 1 := by
  refine ⟨?_,
    by norm_num [detect, detWins, detWindows, detWindow, detTimes, detLogs,
      detFlags, olsSlope, mergePeriods, mergeAux, c1Series, List.range_succ],
    by norm_num [detect, detWins, detWindows, detWindow, detTimes, detLogs,
      detFlags, olsSlope, mergePeriods, mergeAux, c1Series, List.range_succ]⟩
  intro lg eps sw series ws ms smoothing _hws
  have h : (detect lg eps sw series ws ms smoothing).total_periods
      = series.points.length + 1 - ws := by
    simp [detect, detWins_length]
  rw [h]
  omega

/-- C1 witness: the general conjunct applied at a concrete input. -/
theorem C1_total_periods_counts_windows_witness :
    ((detect id 0 3 c1Series 2 (1/2) false).total_periods : ℤ)
      = max ((c1Series.points.length : ℤ) - 2 + 1) 0 :=
  C1_total_periods_counts_windows.1 id 0 3 c1Series 2 (1/2) false (by decide)

/-- C7: for every series with fewer than `window_size` points (zero
windows can be evaluated), `detect` returns `total_periods = 0`,
`status = insufficient_data` and empty `rising_periods`. -/
theorem C7_insufficient_data (lg : ℚ → ℚ) (eps : ℚ) (sw : ℕ)
    (series : SignalSeries) (ws : ℕ) (ms : ℚ) (smoothing : Bool)
    (_hws : 2 ≤ ws) (hshort : series.points.length < ws) :
    (detect lg eps sw series ws ms smoothing).total_periods = 0 ∧
    (detect lg eps sw series ws ms smoothing).status = .insufficient_data ∧
    (detect lg eps sw series ws ms smoothing).rising_periods = [] := by
  have hlen : (detWins lg eps smoothing sw series ws).length = 0 := by
    rw [detWins_length]; omega
  have hnil : detWins lg eps smoothing sw series ws = [] :=
    List.length_eq_zero.mp hlen
  refine ⟨?_, ?_, ?_⟩
  · simp [detect, hlen]
  · simp [detect, hlen]
  · simp [detect, hnil, mergePeriods, mergeAux]

/-- A 1-point series, shorter than any admissible window. -/
def c7Series : SignalSeries :=
  { signal_name := "s"
    geo_type := "state"
    geo_values := []
    points :=
      [ { geo_value := "ny", time_value := 0, value := 1,
          stderrQ := none, sample_size := none } ] }

/-- C7 witness: a 1-point series with `window_size = 2`. -/
theorem C7_insufficient_data_witness :
    (detect id 0 3 c7Series 2 0 false).status = .insufficient_data :=
  (C7_insufficient_data id 0 3 c7Series 2 0 false (by decide) (by decide)).2.1

/-- C3: for results with `status = success`, `classify` returns `high` iff
`rising_ratio ≥ 0.7`, `medium` iff `0.3 ≤ rising_ratio < 0.7`, `low` iff
`rising_ratio < 0.3`; for `status ≠ success` it returns `unknown`; and the
boundary cases: ratio exactly `0.7` classifies `high`, `0.6999` classifies
`medium`. -/
theorem C3_risk_thresholds :
    (∀ r : TrendAnalysisResult, r.status = .success →
      (((classify r).1 = .high ↔ 7/10 ≤ rising_ratio r) ∧
       ((classify r).1 = .medium ↔ 3/10 ≤ rising_ratio r ∧ rising_ratio r < 7/10) ∧
       ((classify r).1 = .low ↔ rising_ratio r < 3/10))) ∧
    (∀ r : TrendAnalysisResult, r.status ≠ .success → (classify r).1 = .unknown) ∧
    ((classify r07).2 = 7/10 ∧ (classify r07).1 = .high) ∧
    ((classify r06999).2 = 6999/10000 ∧ (classify r06999).1 = .medium) := by
  refine ⟨?_, ?_,
    ⟨by norm_num [classify, rising_ratio, periodLen, r07],
     by norm_num [classify, rising_ratio, periodLen, r07]⟩,
    ⟨by norm_num [classify, rising_ratio, periodLen, r06999],
     by norm_num [classify, rising_ratio, periodLen, r06999]⟩⟩
  · intro r hs
    have hne : ¬ r.status ≠ TrendStatus.success := by simp [hs]
    simp only [classify, if_neg hne]
    split_ifs with h1 h2
    · exact ⟨iff_of_true rfl h1,
        iff_of_false (by simp) (fun h => absurd h1 (not_le.mpr h.2)),
        iff_of_false (by simp) (fun h => absurd h1 (not_le.mpr (by linarith)))⟩
    · exact ⟨iff_of_false (by simp) (fun h => h1 h),
        iff_of_true rfl ⟨h2, not_le.mp h1⟩,
        iff_of_false (by simp) (fun h => absurd h2 (not_le.mpr h))⟩
    · exact ⟨iff_of_false (by simp) (fun h => h1 h),
        iff_of_false (by simp) (fun h => h2 h.1),
        iff_of_true rfl (not_le.mp h2)⟩
  · intro r hs
    simp [classify, hs]

/-- C3 witness: the general conjuncts applied at concrete results. -/
theorem C3_risk_thresholds_witness :
    (classify r07).1 = .high ∧
    (classify { r07 with status := .error }).1 = .unknown :=
  ⟨(C3_risk_thresholds.1 r07 rfl).1.mpr
     (by norm_num [rising_ratio, periodLen, r07]),
   C3_risk_thresholds.2.1 { r07 with status := .error } (by simp [r07])⟩

/-- C4: `classify` is total on every result: the rising ratio is the sum
of the period lengths divided by `max(total_periods, 1)`, whose value is
strictly positive (never a division by zero), and a result with empty
`rising_periods` and `total_periods = 0` yields `rising_ratio = 0`. -/
theorem C4_rising_ratio_total (r : TrendAnalysisResult) :
    (0 : ℚ) < ((max r.total_periods 1 : ℕ) : ℚ) ∧
    (classify r).2 * ((max r.total_periods 1 : ℕ) : ℚ)
      = (r.rising_periods.map periodLen).sum ∧
    (r.rising_periods = [] → r.total_periods = 0 → (classify r).2 = 0) := by
  have hpos : (0 : ℚ) < ((max r.total_periods 1 : ℕ) : ℚ) := by
    have : 1 ≤ max r.total_periods 1 := le_max_right _ _
    exact_mod_cast Nat.lt_of_lt_of_le Nat.zero_lt_one this
  refine ⟨hpos, ?_, ?_⟩
  · show rising_ratio r * _ = _
    rw [rising_ratio, div_mul_cancel₀ _ (ne_of_gt hpos)]
  · intro hnil _
    show rising_ratio r = 0
    simp [rising_ratio, hnil]

/-- C4 witness: applied at a result with no periods and zero windows. -/
theorem C4_rising_ratio_total_witness :
    (classify { signal_name := "s", rising_periods := [], total_periods := 0,
                sample_log_slopes := [], status := .insufficient_data }).2 = 0 :=
  (C4_rising_ratio_total _).2.2 rfl rfl

/-- C2: tool output that cannot be parsed back to a signal name is
recorded (never dropped: one record per output) under the placeholder
`"unknown_signal"` with `status = error`; `key_risk_factors` preserves
multiplicities (no de-duplication), so two placeholder rows make the
placeholder name appear twice. -/
theorem C2_unknown_signal_failure_path :
    (∀ outs : List ToolOutput, (recordOutputs outs).length = outs.length) ∧
    (∀ raw, (recordOutput (.unparsable raw)).signal_name = "unknown_signal" ∧
            (recordOutput (.unparsable raw)).status = .error) ∧
    (∀ (rs : List EvidenceRecord) (nm : String),
      (keyRiskFactors rs).count nm
        = rs.countP (fun r => decide (r.risk = .high) && decide (r.signal_name = nm))) ∧
    keyRiskFactors [unknownRec, unknownRec] = ["unknown_signal", "unknown_signal"] := by
  refine ⟨?_, ?_, ?_, by decide⟩
  · intro outs; simp [recordOutputs]
  · intro raw; exact ⟨rfl, rfl⟩
  · intro rs nm
    induction rs with
    | nil => simp [keyRiskFactors]
    | cons r rs ih =>
        by_cases hr : r.risk = .high
        · by_cases hn : r.signal_name = nm
          · simp [keyRiskFactors, List.filter_cons, hr, hn, List.count_cons,
              List.countP_cons, ← ih, keyRiskFactors]
          · simp [keyRiskFactors, List.filter_cons, hr, hn, List.count_cons,
              List.countP_cons, ← ih, keyRiskFactors]
        · simp [keyRiskFactors, List.filter_cons, hr, List.countP_cons, ← ih,
            keyRiskFactors]

/-- The rising period produced by an indexed run of windows: the start
timestamp of the run's first window and the end timestamp of its last. -/
def periodOfRun (W : List TrendWindow) (ab : ℕ × ℕ) : RisingPeriod :=
  { start := ((W[ab.1]?).map TrendWindow.start).getD 0
    stop := ((W[ab.2]?).map TrendWindow.stop).getD 0 }

/-- The operational single-pass merge agrees with the declarative
maximal-run description: merging the suffix of windows from position `i`
yields exactly the image of the runs of the remaining flags. -/
theorem mergeAux_eq_runsAux (W : List TrendWindow) :
    ∀ (F : List Bool) (i : ℕ) (rp : Option (ℕ × ℕ)),
      i + F.length ≤ W.length →
      mergeAux (rp.map (periodOfRun W)) ((W.drop i).zip F)
        = (runsAux i rp F).map (periodOfRun W) := by
  intro F
  induction F with
  | nil =>
      intro i rp _
      cases rp with
      | none => simp [mergeAux, runsAux]
      | some ab => simp [mergeAux, runsAux]
  | cons b F ih =>
      intro i rp h
      have hi : i < W.length := by
        simp only [List.length_cons] at h; omega
      have hrec : i + 1 + F.length ≤ W.length := by
        simp only [List.length_cons] at h; omega
      have hW : W[i]? = some W[i] := List.getElem?_eq_getElem hi
      rw [List.drop_eq_getElem_cons hi, List.zip_cons_cons]
      cases rp with
      | none =>
          cases b with
          | true =>
              have e : periodOfRun W (i, i) = ⟨W[i].start, W[i].stop⟩ := by
                simp [periodOfRun, hW]
              simp only [Option.map_none', mergeAux, runsAux]
              rw [← e, ← Option.map_some', ih (i + 1) (some (i, i)) hrec]
          | false =>
              simp only [Option.map_none', mergeAux, runsAux]
              exact ih (i + 1) none hrec
      | some ab =>
          cases b with
          | true =>
              have e : periodOfRun W (ab.1, i)
                  = ⟨(periodOfRun W ab).start, W[i].stop⟩ := by
                simp [periodOfRun, hW]
              simp only [Option.map_some', mergeAux, runsAux]
              rw [← e, ← Option.map_some', ih (i + 1) (some (ab.1, i)) hrec]
          | false =>
              simp only [Option.map_some', mergeAux, runsAux]
              rw [List.map_cons, ← Option.map_none', ih (i + 1) none hrec]

/-- Bounds of the runs produced by `runsAux`: each run is a well-formed
inclusive range ending before the end of the flag list. -/
theorem runsAux_mem_bounds :
    ∀ (F : List Bool) (i : ℕ) (rp : Option (ℕ × ℕ)),
      (∀ ab, rp = some ab → ab.1 ≤ ab.2 ∧ ab.2 + 1 = i) →
      ∀ ab ∈ runsAux i rp F, ab.1 ≤ ab.2 ∧ ab.2 < i + F.length := by
  intro F
  induction F with
  | nil =>
      intro i rp hrp ab hab
      cases rp with
      | none => simp [runsAux] at hab
      | some ab0 =>
          simp only [runsAux, List.mem_singleton] at hab
          subst hab
          obtain ⟨h1, h2⟩ := hrp ab rfl
          exact ⟨h1, by omega⟩
  | cons b F ih =>
      intro i rp hrp ab hab
      cases rp with
      | none =>
          cases b with
          | true =>
              simp only [runsAux] at hab
              have := ih (i + 1) (some (i, i))
                (fun ab0 h0 => Option.some.inj h0 ▸ ⟨le_refl i, rfl⟩) ab hab
              simp only [List.length_cons]
              omega
          | false =>
              simp only [runsAux] at hab
              have := ih (i + 1) none (fun ab0 h0 => Option.noConfusion h0) ab hab
              simp only [List.length_cons]
              omega
      | some ab0 =>
          obtain ⟨hle, heq⟩ := hrp ab0 rfl
          cases b with
          | true =>
              simp only [runsAux] at hab
              have := ih (i + 1) (some (ab0.1, i))
                (fun ab1 h1 => Option.some.inj h1 ▸ ⟨by omega, rfl⟩) ab hab
              simp only [List.length_cons]
              omega
          | false =>
              simp only [runsAux, List.mem_cons] at hab
              rcases hab with rfl | hab
              · simp only [List.length_cons]
                exact ⟨hle, by omega⟩
              · have := ih (i + 1) none (fun ab1 h1 => Option.noConfusion h1) ab hab
                simp only [List.length_cons]
                omega

/-- Lower bound on the first index of every run produced by `runsAux`. -/
theorem runsAux_lb :
    ∀ (F : List Bool) (i m : ℕ) (rp : Option (ℕ × ℕ)),
      m ≤ i → (∀ ab, rp = some ab → m ≤ ab.1) →
      ∀ ab ∈ runsAux i rp F, m ≤ ab.1 := by
  intro F
  induction F with
  | nil =>
      intro i m rp _ hrp ab hab
      cases rp with
      | none => simp [runsAux] at hab
      | some ab0 =>
          simp only [runsAux, List.mem_singleton] at hab
          subst hab
          exact hrp ab rfl
  | cons b F ih =>
      intro i m rp hmi hrp ab hab
      cases rp with
      | none =>
          cases b with
          | true =>
              simp only [runsAux] at hab
              exact ih (i + 1) m (some (i, i)) (by omega)
                (fun ab0 h0 => Option.some.inj h0 ▸ hmi) ab hab
          | false =>
              simp only [runsAux] at hab
              exact ih (i + 1) m none (by omega)
                (fun ab0 h0 => Option.noConfusion h0) ab hab
      | some ab0 =>
          cases b with
          | true =>
              simp only [runsAux] at hab
              exact ih (i + 1) m (some (ab0.1, i)) (by omega)
                (fun ab1 h1 => Option.some.inj h1 ▸ hrp ab0 rfl) ab hab
          | false =>
              simp only [runsAux, List.mem_cons] at hab
              rcases hab with rfl | hab
              · exact hrp ab rfl
              · exact ih (i + 1) m none (by omega)
                  (fun ab1 h1 => Option.noConfusion h1) ab hab

/-- Distinct runs produced by `runsAux` are separated by at least one
non-rising index: consecutive runs satisfy `x.2 + 2 ≤ y.1`. -/
theorem runsAux_gap_pairwise :
    ∀ (F : List Bool) (i : ℕ) (rp : Option (ℕ × ℕ)),
      (∀ ab, rp = some ab → ab.2 + 1 = i) →
      (runsAux i rp F).Pairwise (fun x y => x.2 + 2 ≤ y.1) := by
  intro F
  induction F with
  | nil =>
      intro i rp _
      cases rp with
      | none => simp [runsAux]
      | some ab0 => simp [runsAux]
  | cons b F ih =>
      intro i rp hrp
      cases rp with
      | none =>
          cases b with
          | true =>
              simp only [runsAux]
              exact ih (i + 1) (some (i, i)) (fun ab0 h0 => Option.some.inj h0 ▸ rfl)
          | false =>
              simp only [runsAux]
              exact ih (i + 1) none (fun ab0 h0 => Option.noConfusion h0)
      | some ab0 =>
          cases b with
          | true =>
              simp only [runsAux]
              exact ih (i + 1) (some (ab0.1, i))
                (fun ab1 h1 => Option.some.inj h1 ▸ rfl)
          | false =>
              simp only [runsAux]
              refine List.Pairwise.cons ?_
                (ih (i + 1) none (fun ab1 h1 => Option.noConfusion h1))
              intro y hy
              have hlb : i + 1 ≤ y.1 :=
                runsAux_lb F (i + 1) (i + 1) none (le_refl _)
                  (fun ab1 h1 => Option.noConfusion h1) y hy
              have := hrp ab0 rfl
              omega

/-- A `true` read through `getD` with default `false` is in range. -/
theorem getD_true_lt_length (F : List Bool) (k : ℕ)
    (h : F.getD k false = true) : k < F.length := by
  by_contra hk
  rw [List.getD_eq_getElem?_getD, List.getElem?_eq_none (by omega)] at h
  simp at h

/-- Every run produced by `runsAux` is a maximal contiguous block of
`true` flags in the full list `F0`: all flags inside it are `true` and the
flags just before and just after it (when they exist) are `false`. -/
theorem runsAux_maximal :
    ∀ (F F0 : List Bool) (i : ℕ) (rp : Option (ℕ × ℕ)),
      F0.drop i = F →
      (rp = none → (i = 0 ∨ F0.getD (i - 1) false = false)) →
      (∀ ab, rp = some ab →
        ab.1 ≤ ab.2 ∧ ab.2 + 1 = i ∧
        (∀ k, ab.1 ≤ k → k ≤ ab.2 → F0.getD k false = true) ∧
        (ab.1 = 0 ∨ F0.getD (ab.1 - 1) false = false)) →
      ∀ ab ∈ runsAux i rp F,
        (∀ k, ab.1 ≤ k → k ≤ ab.2 → F0.getD k false = true) ∧
        (ab.1 = 0 ∨ F0.getD (ab.1 - 1) false = false) ∧
        (ab.2 + 1 = F0.length ∨ F0.getD (ab.2 + 1) false = false) := by
  intro F
  induction F with
  | nil =>
      intro F0 i rp hdrop hnone hsome ab hab
      cases rp with
      | none => simp [runsAux] at hab
      | some ab0 =>
          simp only [runsAux, List.mem_singleton] at hab
          subst hab
          obtain ⟨h1, h2, h3, h4⟩ := hsome ab rfl
          refine ⟨h3, h4, Or.inl ?_⟩
          have hlen : F0.length ≤ i := by
            have hc := congrArg List.length hdrop
            simp only [List.length_drop, List.length_nil] at hc
            omega
          have htrue := h3 ab.2 h1 (le_refl _)
          have := getD_true_lt_length F0 ab.2 htrue
          omega
  | cons b F ih =>
      intro F0 i rp hdrop hnone hsome ab hab
      have hi : i < F0.length := by
        by_contra hc
        rw [List.drop_eq_nil_of_le (by omega)] at hdrop
        exact List.noConfusion hdrop
      have hF0i : F0[i]? = some b := by
        have h0 : (F0.drop i)[0]? = some b := by rw [hdrop]; simp
        rwa [List.getElem?_drop, Nat.add_zero] at h0
      have hgetd : F0.getD i false = b := by
        simp [List.getD_eq_getElem?_getD, hF0i]
      have hdrop' : F0.drop (i + 1) = F := by
        have h1 : (F0.drop i).drop 1 = F := by rw [hdrop]; rfl
        rw [List.drop_drop] at h1
        simpa [Nat.add_comm] using h1
      cases rp with
      | none =>
          cases b with
          | true =>
              simp only [runsAux] at hab
              refine ih F0 (i + 1) (some (i, i)) hdrop'
                (fun h0 => Option.noConfusion h0) ?_ ab hab
              intro ab0 h0
              cases h0
              refine ⟨le_refl i, rfl, ?_, hnone rfl⟩
              intro k hk1 hk2
              have hk : k = i := by omega
              subst hk
              exact hgetd
          | false =>
              simp only [runsAux] at hab
              refine ih F0 (i + 1) none hdrop' ?_
                (fun ab0 h0 => Option.noConfusion h0) ab hab
              intro _
              right
              simpa using hgetd
      | some ab0 =>
          obtain ⟨h1, h2, h3, h4⟩ := hsome ab0 rfl
          cases b with
          | true =>
              simp only [runsAux] at hab
              refine ih F0 (i + 1) (some (ab0.1, i)) hdrop'
                (fun h0 => Option.noConfusion h0) ?_ ab hab
              intro ab1 h0
              cases h0
              refine ⟨by omega, rfl, ?_, h4⟩
              intro k hk1 hk2
              by_cases hk : k ≤ ab0.2
              · exact h3 k hk1 hk
              · have hki : k = i := by omega
                subst hki
                exact hgetd
          | false =>
              simp only [runsAux, List.mem_cons] at hab
              rcases hab with rfl | hab
              · refine ⟨h3, h4, Or.inr ?_⟩
                rw [h2]
                exact hgetd
              · refine ih F0 (i + 1) none hdrop' ?_
                  (fun ab1 h0 => Option.noConfusion h0) ab hab
                intro _
                right
                simpa using hgetd

/-- On a series with valid (strictly ascending) timestamps, the detector's
`rising_periods` are exactly the image of the maximal `true`-runs of its
rising flags under `periodOfRun`. -/
theorem detect_periods_eq (lg : ℚ → ℚ) (eps : ℚ) (sw : ℕ)
    (series : SignalSeries) (ws : ℕ) (ms : ℚ) (smoothing : Bool)
    (hchain : List.Chain' (fun a b : ℤ => a < b) (detTimes series)) :
    (detect lg eps sw series ws ms smoothing).rising_periods
      = (trueRuns (detFlags lg eps smoothing sw series ws ms)).map
          (periodOfRun (detWins lg eps smoothing sw series ws)) := by
  have hlen : (0 : ℕ) + (detFlags lg eps smoothing sw series ws ms).length
      ≤ (detWins lg eps smoothing sw series ws).length := by
    simp [detFlags]
  have key := mergeAux_eq_runsAux (detWins lg eps smoothing sw series ws)
    (detFlags lg eps smoothing sw series ws ms) 0 none hlen
  simp only [List.drop_zero, Option.map_none'] at key
  simpa [detect, mergePeriods, trueRuns, hchain] using key

/-- The window list element at an in-range position. -/
theorem detWins_getElem? (lg : ℚ → ℚ) (eps : ℚ) (smoothing : Bool) (sw : ℕ)
    (series : SignalSeries) (ws k : ℕ)
    (hk : k < series.points.length + 1 - ws) :
    (detWins lg eps smoothing sw series ws)[k]?
      = some (detWindow (detTimes series)
          (detLogs lg eps smoothing sw series) ws k) := by
  have hk' : k < (detTimes series).length + 1 - ws := by
    simpa [detTimes] using hk
  simp [detWins, detWindows, List.getElem?_range, hk']

/-- Start timestamp of the period of an in-range run. -/
theorem periodOfRun_start (lg : ℚ → ℚ) (eps : ℚ) (smoothing : Bool) (sw : ℕ)
    (series : SignalSeries) (ws : ℕ) (ab : ℕ × ℕ)
    (h : ab.1 < series.points.length + 1 - ws) :
    (periodOfRun (detWins lg eps smoothing sw series ws) ab).start
      = (detTimes series).getD ab.1 0 := by
  simp [periodOfRun, detWins_getElem? lg eps smoothing sw series ws ab.1 h,
    detWindow]

/-- End timestamp of the period of an in-range run. -/
theorem periodOfRun_stop (lg : ℚ → ℚ) (eps : ℚ) (smoothing : Bool) (sw : ℕ)
    (series : SignalSeries) (ws : ℕ) (ab : ℕ × ℕ)
    (h : ab.2 < series.points.length + 1 - ws) :
    (periodOfRun (detWins lg eps smoothing sw series ws) ab).stop
      = (detTimes series).getD (ab.2 + ws - 1) 0 := by
  simp [periodOfRun, detWins_getElem? lg eps smoothing sw series ws ab.2 h,
    detWindow]

/-- The windows used by the concrete merge instance: window `i` starts and
ends at timestamp `i` (a window of a single point, as in the spec's merge
test). -/
def exWins : List TrendWindow :=
  (List.range 7).map (fun i => { start := (i : ℤ), stop := (i : ℤ), log_slope := 0 })

/-- C5: the detector merges rising windows into maximal contiguous runs.
For every series and parameters (with valid timestamps), `rising_periods`
is exactly the image of the maximal `true`-runs of the rising flags, the
period of a run starting at the first window's start timestamp and ending
at the last window's end timestamp; every run is maximal (all flags inside
are rising, the neighbours are not), and runs separated by a non-rising
window are distinct periods.  Concretely, flags rising at indices
`{0,1,2,5,6}` yield exactly the two runs `(0,2)` and `(5,6)`, and merged
over single-point windows the two periods covering `{0,1,2}` and
`{5,6}`. -/
theorem C5_merge_maximal_runs :
    (∀ (lg : ℚ → ℚ) (eps : ℚ) (sw : ℕ) (series : SignalSeries) (ws : ℕ)
       (ms : ℚ) (smoothing : Bool),
      List.Chain' (fun a b : ℤ => a < b) (detTimes series) →
      (detect lg eps sw series ws ms smoothing).rising_periods
        = (trueRuns (detFlags lg eps smoothing sw series ws ms)).map
            (periodOfRun (detWins lg eps smoothing sw series ws))) ∧
    (∀ (F : List Bool), ∀ ab ∈ trueRuns F,
      ab.1 ≤ ab.2 ∧ ab.2 < F.length ∧
      (∀ k, ab.1 ≤ k → k ≤ ab.2 → F.getD k false = true) ∧
      (ab.1 = 0 ∨ F.getD (ab.1 - 1) false = false) ∧
      (ab.2 + 1 = F.length ∨ F.getD (ab.2 + 1) false = false)) ∧
    trueRuns [true, true, true, false, false, true, true] = [(0, 2), (5, 6)] ∧
    mergePeriods (exWins.zip [true, true, true, false, false, true, true])
      = [⟨0, 2⟩, ⟨5, 6⟩] := by
  refine ⟨?_, ?_, by decide, by decide⟩
  · intro lg eps sw series ws ms smoothing hchain
    exact detect_periods_eq lg eps sw series ws ms smoothing hchain
  · intro F ab hab
    have hb := runsAux_mem_bounds F 0 none
      (fun ab0 h0 => Option.noConfusion h0) ab hab
    have hm := runsAux_maximal F F 0 none rfl (fun _ => Or.inl rfl)
      (fun ab0 h0 => Option.noConfusion h0) ab hab
    exact ⟨hb.1, by simpa using hb.2, hm.1, hm.2.1, hm.2.2⟩

/-- C5 witness: the general conjuncts applied at concrete inputs — the
rising `c1Series` with `window_size = 2`, and the run `(0,2)` of the
example flag list. -/
theorem C5_merge_maximal_runs_witness :
    (detect id 0 3 c1Series 2 (1/2) false).rising_periods
      = (trueRuns (detFlags id 0 false 3 c1Series 2 (1/2))).map
          (periodOfRun (detWins id 0 false 3 c1Series 2)) ∧
    (∀ k, (0 : ℕ) ≤ k → k ≤ 2 →
      ([true, true, true, false, false, true, true] : List Bool).getD k false = true) :=
  ⟨C5_merge_maximal_runs.1 id 0 3 c1Series 2 (1/2) false
     (by norm_num [detTimes, c1Series]),
   (C5_merge_maximal_runs.2.1 [true, true, true, false, false, true, true]
      (0, 2) (by decide)).2.2.1⟩

/-- A 6-point series oscillating between 1 and 11: with `window_size = 4`
its windows 0 and 2 rise while window 1 does not, producing two rising
periods whose time intervals overlap.  The values are chosen so the flag
pattern is the same under any strictly increasing log transform. -/
def cexSeries : SignalSeries :=
  { signal_name := "cex"
    geo_type := "state"
    geo_values := ["ny"]
    points :=
      [ { geo_value := "ny", time_value := 0, value := 1, stderrQ := none, sample_size := none }
      , { geo_value := "ny", time_value := 1, value := 11, stderrQ := none, sample_size := none }
      , { geo_value := "ny", time_value := 2, value := 1, stderrQ := none, sample_size := none }
      , { geo_value := "ny", time_value := 3, value := 11, stderrQ := none, sample_size := none }
      , { geo_value := "ny", time_value := 4, value := 1, stderrQ := none, sample_size := none }
      , { geo_value := "ny", time_value := 5, value := 11, stderrQ := none, sample_size := none } ] }

/-- C6 counterexample: on `cexSeries` with `window_size = 4` the detector
returns the two rising periods `[0,3]` and `[2,5]`, whose time intervals
overlap — the claim that the returned periods are always pairwise
non-overlapping is false. -/
theorem C6_overlap_counterexample :
    (detect id (1/1000) 3 cexSeries 4 (1/100) false).rising_periods
      = [⟨0, 3⟩, ⟨2, 5⟩] ∧
    ¬ ((detect id (1/1000) 3 cexSeries 4 (1/100) false).rising_periods.Pairwise
        (fun a b => a.stop < b.start ∨ b.stop < a.start)) := by
  have h : (detect id (1/1000) 3 cexSeries 4 (1/100) false).rising_periods
      = [⟨0, 3⟩, ⟨2, 5⟩] := by
    norm_num [detect, detWins, detWindows, detWindow, detTimes, detLogs,
      detFlags, olsSlope, mergePeriods, mergeAux, cexSeries, List.range_succ]
  refine ⟨h, ?_⟩
  rw [h]
  decide

/-- C6 amended: for every series and parameters with `window_size ≥ 2`,
the returned `rising_periods` satisfy `start ≤ end` for each period and
are sorted by strictly increasing `start` (so distinct and ordered); they
are moreover pairwise non-overlapping as time intervals when
`window_size = 2`, but for `window_size ≥ 3` adjacent periods may overlap
because adjacent windows share `window_size - 1` points
(`C6_overlap_counterexample`). -/
theorem C6_period_invariant_amended (lg : ℚ → ℚ) (eps : ℚ) (sw : ℕ)
    (series : SignalSeries) (ws : ℕ) (ms : ℚ) (smoothing : Bool)
    (hws : 2 ≤ ws) :
    (∀ p ∈ (detect lg eps sw series ws ms smoothing).rising_periods,
      p.start ≤ p.stop) ∧
    (detect lg eps sw series ws ms smoothing).rising_periods.Pairwise
      (fun a b => a.start < b.start) ∧
    (ws = 2 →
      (detect lg eps sw series ws ms smoothing).rising_periods.Pairwise
        (fun a b => a.stop < b.start)) := by
  by_cases hchain : List.Chain' (fun a b : ℤ => a < b) (detTimes series)
  · have hmono : ∀ i j, i < (detTimes series).length →
        j < (detTimes series).length → i < j →
        (detTimes series).getD i 0 < (detTimes series).getD j 0 := by
      intro i j hi hj hij
      have hp := List.chain'_iff_pairwise.mp hchain
      rw [List.pairwise_iff_getElem] at hp
      have := hp i j hi hj hij
      simpa [List.getD_eq_getElem?_getD, List.getElem?_eq_getElem, hi, hj]
        using this
    have hmono' : ∀ i j, i < (detTimes series).length →
        j < (detTimes series).length → i ≤ j →
        (detTimes series).getD i 0 ≤ (detTimes series).getD j 0 := by
      intro i j hi hj hij
      rcases Nat.lt_or_ge i j with hlt | hge
      · exact le_of_lt (hmono i j hi hj hlt)
      · have : i = j := by omega
        subst this
        exact le_refl _
    have hTlen : (detTimes series).length = series.points.length := by
      simp [detTimes]
    have hFlen : (detFlags lg eps smoothing sw series ws ms).length
        = series.points.length + 1 - ws := by
      simp [detFlags, detWins_length]
    have hkey := detect_periods_eq lg eps sw series ws ms smoothing hchain
    rw [hkey]
    have hbounds : ∀ ab ∈ trueRuns (detFlags lg eps smoothing sw series ws ms),
        ab.1 ≤ ab.2 ∧ ab.2 < series.points.length + 1 - ws := by
      intro ab hab
      have := runsAux_mem_bounds (detFlags lg eps smoothing sw series ws ms)
        0 none (fun ab0 h0 => Option.noConfusion h0) ab hab
      omega
    refine ⟨?_, ?_, ?_⟩
    · intro p hp
      rw [List.mem_map] at hp
      obtain ⟨ab, habmem, rfl⟩ := hp
      obtain ⟨hle, hlt⟩ := hbounds ab habmem
      have h1 : ab.1 < series.points.length + 1 - ws := by omega
      rw [periodOfRun_start lg eps smoothing sw series ws ab h1,
        periodOfRun_stop lg eps smoothing sw series ws ab hlt]
      exact hmono' ab.1 (ab.2 + ws - 1) (by omega) (by omega) (by omega)
    · rw [List.pairwise_map]
      refine List.Pairwise.imp_of_mem ?_
        (runsAux_gap_pairwise (detFlags lg eps smoothing sw series ws ms)
          0 none (fun ab0 h0 => Option.noConfusion h0))
      intro a b hamem hbmem hab
      obtain ⟨ha1, ha2⟩ := hbounds a hamem
      obtain ⟨hb1, hb2⟩ := hbounds b hbmem
      rw [periodOfRun_start lg eps smoothing sw series ws a (by omega),
        periodOfRun_start lg eps smoothing sw series ws b (by omega)]
      exact hmono a.1 b.1 (by omega) (by omega) (by omega)
    · intro hws2
      subst hws2
      rw [List.pairwise_map]
      refine List.Pairwise.imp_of_mem ?_
        (runsAux_gap_pairwise (detFlags lg eps smoothing sw series 2 ms)
          0 none (fun ab0 h0 => Option.noConfusion h0))
      intro a b hamem hbmem hab
      obtain ⟨ha1, ha2⟩ := hbounds a hamem
      obtain ⟨hb1, hb2⟩ := hbounds b hbmem
      rw [periodOfRun_stop lg eps smoothing sw series 2 a (by omega),
        periodOfRun_start lg eps smoothing sw series 2 b (by omega)]
      exact hmono (a.2 + 2 - 1) b.1 (by omega) (by omega) (by omega)
  · have hnil : (detect lg eps sw series ws ms smoothing).rising_periods = [] := by
      simp [detect, hchain]
    rw [hnil]
    exact ⟨fun p hp => absurd hp (List.not_mem_nil p),
      List.Pairwise.nil, fun _ => List.Pairwise.nil⟩

/-- C6 witness: the amended invariant at a concrete rising series with
`window_size = 2`, where full interval-disjointness also holds. -/
theorem C6_period_invariant_amended_witness :
    (detect id 0 3 c1Series 2 (1/2) false).rising_periods.Pairwise
      (fun a b => a.stop < b.start) :=
  (C6_period_invariant_amended id 0 3 c1Series 2 (1/2) false (by decide)).2.2 rfl

/-- C10 counterexample: `createAlert` returns `response.json()` from
inside the `try` without awaiting it, so when the HTTP request succeeds
but the body fails to decode as JSON its promise rejects — the claim that
every exported fetch wrapper never rejects is false on this input. -/
theorem C10_createAlert_rejects :
    createAlert { httpOk := true, jsonOk := false, body := .jnull } = .rejected := rfl

/-- C10 amended: every exported wrapper that awaits `response.json()`
inside the `try` (all of them except `createAlert` and `updatePolicy`)
never lets its promise reject and returns `[]` (list wrappers) or `{}`
(object wrappers) on any transport or decoding failure, making a
transport failure indistinguishable from an empty result; `createAlert`
and `updatePolicy` return the un-awaited `response.json()` promise, so
they resolve with `{}` on a transport failure but reject when JSON
decoding fails. -/
theorem C10_wrappers_amended :
    (∀ (env : FetchEnv) (idStr : String), ¬(env.httpOk = true ∧ env.jsonOk = true) →
      fetchAlerts env = .resolved (.jarr []) ∧
      fetchAlert idStr env = .resolved (.jobj []) ∧
      fetchStrategiesByAlert idStr env = .resolved (.jarr []) ∧
      generateStrategiesByAlert idStr env = .resolved (.jarr []) ∧
      generatePolicyFromStrategy idStr env = .resolved (.jobj []) ∧
      fetchApprovedPolicies env = .resolved (.jarr []) ∧
      fetchDraftPolicies env = .resolved (.jarr []) ∧
      fetchApprovedPoliciesByAlert idStr env = .resolved (.jarr []) ∧
      fetchSummary env = .resolved (.jarr [])) ∧
    (∀ (env : FetchEnv) (idStr : String),
      (∃ v, fetchAlerts env = .resolved v) ∧
      (∃ v, fetchAlert idStr env = .resolved v) ∧
      (∃ v, fetchStrategiesByAlert idStr env = .resolved v) ∧
      (∃ v, generateStrategiesByAlert idStr env = .resolved v) ∧
      (∃ v, generatePolicyFromStrategy idStr env = .resolved v) ∧
      (∃ v, fetchApprovedPolicies env = .resolved v) ∧
      (∃ v, fetchDraftPolicies env = .resolved v) ∧
      (∃ v, fetchApprovedPoliciesByAlert idStr env = .resolved v) ∧
      (∃ v, fetchSummary env = .resolved v)) ∧
    (fetchAlerts { httpOk := false, jsonOk := true, body := .jnull }
      = fetchAlerts { httpOk := true, jsonOk := true, body := .jarr [] }) ∧
    (∀ env : FetchEnv, env.httpOk = false →
      createAlert env = .resolved (.jobj []) ∧ updatePolicy env = .resolved (.jobj [])) ∧
    (∀ env : FetchEnv, env.httpOk = true → env.jsonOk = false →
      createAlert env = .rejected ∧ updatePolicy env = .rejected) := by
  refine ⟨?_, ?_, rfl, ?_, ?_⟩
  · rintro ⟨h, j, b⟩ idStr hne
    cases h <;> cases j <;>
      simp_all [fetchAlerts, fetchAlert, fetchStrategiesByAlert,
        generateStrategiesByAlert, generatePolicyFromStrategy,
        fetchApprovedPolicies, fetchDraftPolicies,
        fetchApprovedPoliciesByAlert, fetchSummary]
  · rintro ⟨h, j, b⟩ idStr
    cases h <;> cases j <;>
      simp [fetchAlerts, fetchAlert, fetchStrategiesByAlert,
        generateStrategiesByAlert, generatePolicyFromStrategy,
        fetchApprovedPolicies, fetchDraftPolicies,
        fetchApprovedPoliciesByAlert, fetchSummary]
  · rintro ⟨h, j, b⟩ hh
    subst hh
    exact ⟨rfl, rfl⟩
  · rintro ⟨h, j, b⟩ hh hj
    subst hh; subst hj
    exact ⟨rfl, rfl⟩

/-- C10 witness: the amended behavior at concrete environments. -/
theorem C10_wrappers_amended_witness :
    fetchAlerts { httpOk := false, jsonOk := true, body := .jnull }
      = .resolved (.jarr []) ∧
    createAlert { httpOk := false, jsonOk := true, body := .jnull }
      = .resolved (.jobj []) :=
  ⟨(C10_wrappers_amended.1 { httpOk := false, jsonOk := true, body := .jnull }
      "1" (by simp)).1,
   (C10_wrappers_amended.2.2.2.1 { httpOk := false, jsonOk := true, body := .jnull }
      rfl).1⟩

/-! ## Orchestrator lemmas and claims C8, C9 -/

/-- Unfolding one step of the trace. -/
theorem orchTrace_succ (cfg : OrchConfig) (n : ℕ) :
    orchTrace cfg (n + 1) = orchStep cfg (orchTrace cfg n) :=
  Function.iterate_succ_apply' (orchStep cfg) n orchInit

/-- Terminal states are absorbing. -/
theorem orchStep_absorb (cfg : OrchConfig) (s : OrchState) (h : Terminal s) :
    orchStep cfg s = s := by
  rcases h with h | h <;> simp [orchStep, h]

/-- Weight of each phase in the termination measure. -/
def phaseWeight : Phase → ℕ
  | .init => 5
  | .planning => 4
  | .fetching => 3
  | .analyzing => 2
  | .finalizing => 1
  | .done => 0
  | .error => 0

/-- Termination measure of the orchestration loop: iterations left to the
budget, refined by the phase. -/
def orchMeasure (cfg : OrchConfig) (s : OrchState) : ℕ :=
  3 * (cfg.maxIter + 1 - s.iters) + phaseWeight s.phase

/-- Every non-terminal step strictly decreases the measure: the iteration
budget is the sole cancellation mechanism and it always makes progress. -/
theorem orchMeasure_decreases (cfg : OrchConfig) (s : OrchState)
    (h : ¬ Terminal s) :
    orchMeasure cfg (orchStep cfg s) < orchMeasure cfg s := by
  rcases s with ⟨ph, it, pend, fr, ev, rep⟩
  cases ph with
  | init => simp [orchStep, orchMeasure, phaseWeight]
  | planning =>
      simp only [orchStep, orchMeasure]
      split_ifs with hb
      · simp [phaseWeight]
      · cases cfg.planner ev <;> simp [phaseWeight]
  | fetching => simp [orchStep, orchMeasure, phaseWeight]
  | analyzing =>
      simp only [orchStep, orchMeasure]
      split_ifs with hb <;> simp only [phaseWeight] <;> omega
  | finalizing =>
      simp only [orchStep, orchMeasure]
      split_ifs <;> simp [phaseWeight]
  | done => exact absurd (Or.inl rfl) h
  | error => exact absurd (Or.inr rfl) h

/-- From any state, a terminal state is reached within `orchMeasure`
steps. -/
theorem orch_terminates (cfg : OrchConfig) :
    ∀ (m : ℕ) (s : OrchState), orchMeasure cfg s ≤ m →
      ∃ n, n ≤ m ∧ Terminal ((orchStep cfg)^[n] s) := by
  intro m
  induction m with
  | zero =>
      intro s hs
      by_cases ht : Terminal s
      · exact ⟨0, le_refl 0, ht⟩
      · exact absurd (orchMeasure_decreases cfg s ht) (by omega)
  | succ m ih =>
      intro s hs
      by_cases ht : Terminal s
      · exact ⟨0, Nat.zero_le _, ht⟩
      · have hd := orchMeasure_decreases cfg s ht
        obtain ⟨n, hn, hterm⟩ := ih (orchStep cfg s) (by omega)
        refine ⟨n + 1, by omega, ?_⟩
        rwa [Function.iterate_succ_apply]

/-- A step out of a non-terminal state lands in a terminal state only
from FINALIZING, which emits the report over the unchanged evidence. -/
theorem orchStep_to_terminal (cfg : OrchConfig) (s : OrchState)
    (h : ¬ Terminal s) (ht : Terminal (orchStep cfg s)) :
    s.phase = .finalizing ∧
    (orchStep cfg s).report = some (mkReport s.evidence) ∧
    (orchStep cfg s).evidence = s.evidence := by
  rcases s with ⟨ph, it, pend, fr, ev, rep⟩
  cases ph with
  | init => simp [orchStep, Terminal] at ht
  | planning =>
      exfalso
      simp only [orchStep] at ht
      revert ht
      split_ifs with hb
      · simp [Terminal]
      · cases cfg.planner ev <;> simp [Terminal]
  | fetching => simp [orchStep, Terminal] at ht
  | analyzing =>
      exfalso
      simp only [orchStep] at ht
      revert ht
      split_ifs <;> simp [Terminal]
  | finalizing => exact ⟨rfl, rfl, rfl⟩
  | done => exact absurd (Or.inl rfl) h
  | error => exact absurd (Or.inr rfl) h

/-- A step out of any phase other than FINALIZING leaves the report
field unchanged. -/
theorem orchStep_report_of_ne (cfg : OrchConfig) (s : OrchState)
    (h : s.phase ≠ .finalizing) :
    (orchStep cfg s).report = s.report := by
  rcases s with ⟨ph, it, pend, fr, ev, rep⟩
  cases ph with
  | init => rfl
  | planning =>
      simp only [orchStep]
      split_ifs
      · rfl
      · cases cfg.planner ev <;> rfl
  | fetching => rfl
  | analyzing => rfl
  | finalizing => exact absurd rfl h
  | done => rfl
  | error => rfl

/-- A step out of FINALIZING always lands in a terminal state. -/
theorem orchStep_finalizing_terminal (cfg : OrchConfig) (s : OrchState)
    (h : s.phase = .finalizing) : Terminal (orchStep cfg s) := by
  rcases s with ⟨ph, it, pend, fr, ev, rep⟩
  simp only at h
  subst h
  simp only [orchStep, Terminal]
  split_ifs <;> simp

/-- C9: for every configuration — planner, fetch oracle (including ones
that time out or return malformed data for any subset of signals), budget
and detector parameters — the run reaches a terminal state (DONE or
ERROR) with exactly one report: no report exists before, the final state
is absorbing, and the report is the aggregation of the gathered evidence
(the run is a total function, so the caller never observes an exception).
A FETCHING step always continues to ANALYZING; an ANALYZING step records
every failed fetch as an `error`-status record with `fetched_ok = false`
and continues to PLANNING or FINALIZING.  The report has
`success = false` exactly when no signal at all was fetched successfully,
and then its `error` field is populated. -/
theorem C9_failure_isolation (cfg : OrchConfig) :
    (∃ n, Terminal (orchTrace cfg n) ∧
      (orchTrace cfg n).report = some (mkReport (orchTrace cfg n).evidence) ∧
      (∀ m, m < n → (orchTrace cfg m).report = none) ∧
      (∀ k, orchTrace cfg (n + k) = orchTrace cfg n)) ∧
    (∀ s : OrchState, s.phase = .fetching →
      (orchStep cfg s).phase = .analyzing) ∧
    (∀ (s : OrchState) (nm : String), s.phase = .analyzing →
      (nm, (none : Option SignalSeries)) ∈ s.fresh →
      ((orchStep cfg s).phase = .planning ∨ (orchStep cfg s).phase = .finalizing) ∧
      ∃ r ∈ (orchStep cfg s).evidence,
        r.signal_name = nm ∧ r.result.status = .error ∧ r.fetched_ok = false) ∧
    (∀ rs : List EvidenceRecord,
      ((mkReport rs).success = false ↔ ∀ r ∈ rs, r.fetched_ok = false) ∧
      ((mkReport rs).success = false → (mkReport rs).error.isSome = true)) := by
  refine ⟨?_, ?_, ?_, ?_⟩
  · have hex : ∃ n, Terminal (orchTrace cfg n) := by
      obtain ⟨n, _, hterm⟩ := orch_terminates cfg
        (orchMeasure cfg orchInit) orchInit (le_refl _)
      exact ⟨n, hterm⟩
    have hterm : Terminal (orchTrace cfg (Nat.find hex)) := Nat.find_spec hex
    have hmin : ∀ m, m < Nat.find hex → ¬ Terminal (orchTrace cfg m) :=
      fun m hm => Nat.find_min hex hm
    set n0 := Nat.find hex with hdef
    have h0 : ¬ Terminal (orchTrace cfg 0) := by
      simp [orchTrace, orchInit, Terminal]
    have hn0 : n0 ≠ 0 := fun hz => h0 (hz ▸ hterm)
    have hpred : orchTrace cfg n0 = orchStep cfg (orchTrace cfg (n0 - 1)) := by
      have h1 : n0 - 1 + 1 = n0 := by omega
      conv_lhs => rw [← h1]
      rw [orchTrace_succ]
    have hnt : ¬ Terminal (orchTrace cfg (n0 - 1)) := hmin (n0 - 1) (by omega)
    obtain ⟨hfin, hrep, hev⟩ := orchStep_to_terminal cfg
      (orchTrace cfg (n0 - 1)) hnt (by rwa [← hpred])
    refine ⟨n0, hterm, ?_, ?_, ?_⟩
    · rw [hpred, hrep, hev]
    · intro m hm
      induction m with
      | zero => simp [orchTrace, orchInit]
      | succ m ihm =>
          have hm' : m < n0 := by omega
          have hmne : (orchTrace cfg m).phase ≠ .finalizing := by
            intro hfin'
            exact hmin (m + 1) hm
              (by rw [orchTrace_succ]
                  exact orchStep_finalizing_terminal cfg _ hfin')
          rw [orchTrace_succ, orchStep_report_of_ne cfg _ hmne]
          exact ihm hm'
    · intro k
      induction k with
      | zero => rfl
      | succ k ihk =>
          have : n0 + (k + 1) = (n0 + k) + 1 := by omega
          rw [this, orchTrace_succ, ihk, orchStep_absorb cfg _ hterm]
  · intro s hs
    rcases s with ⟨ph, it, pend, fr, ev, rep⟩
    simp only at hs
    subst hs
    rfl
  · intro s nm hs hmem
    rcases s with ⟨ph, it, pend, fr, ev, rep⟩
    simp only at hs
    subst hs
    constructor
    · simp only [orchStep]
      split_ifs
      · right; rfl
      · left; rfl
    · refine ⟨analyzeRecord cfg (nm, none), ?_, rfl, rfl, rfl⟩
      simp only [orchStep, List.mem_append]
      right
      exact List.mem_map_of_mem (analyzeRecord cfg) hmem
  · intro rs
    constructor
    · simp [mkReport, List.any_eq_false]
    · intro hf
      simp only [mkReport] at hf ⊢
      rw [if_neg (by simp [hf])]
      rfl

/-- Records produced by fetching and analyzing the signals `ns`. -/
def fetchRecs (cfg : OrchConfig) (ns : List String) : List EvidenceRecord :=
  (ns.map (fun nm => (nm, cfg.oracle nm))).map (analyzeRecord cfg)

/-- A run configuration with budget 2, a planner that always requests one
more fetch, and an oracle for which every fetch fails. -/
def cfgFail : OrchConfig :=
  { planner := fun _ => .fetchSignals ["sig"]
    oracle := fun _ => none
    maxIter := 2
    lg := id
    eps := 0
    sw := 3
    ws := 7
    ms := 1 / 100
    smoothing := false }

/-- A run configuration with budget 2, a planner that always requests one
more fetch, and an oracle that returns the rising `c1Series`. -/
def cfgOk : OrchConfig :=
  { planner := fun _ => .fetchSignals ["s"]
    oracle := fun _ => some c1Series
    maxIter := 2
    lg := id
    eps := 0
    sw := 3
    ws := 2
    ms := 1 / 2
    smoothing := false }

/-- C8 counterexample: with `max_iterations = 2`, an always-fetching
planner and an oracle for which every fetch fails, the run does respect
the budget (ANALYZING at steps 3 and 6, FINALIZING at step 7) but the
emitted report has `success = false` — so "the emitted DashboardReport
has success = true" does not hold of every such run. -/
theorem C8_budget_counterexample :
    (orchTrace cfgFail 8).report.map (fun r => r.success) = some false ∧
    (orchTrace cfgFail 3).phase = .analyzing ∧
    (orchTrace cfgFail 6).phase = .analyzing ∧
    (orchTrace cfgFail 7).phase = .finalizing := by
  refine ⟨rfl, rfl, rfl, rfl⟩

/-- C8 amended: for every run with `max_iterations = 2` whose planner
keeps requesting more fetches, the machine is in ANALYZING exactly at
steps 3 and 6, transitions to FINALIZING at step 7 (never executing a
further PLANNING/FETCHING/ANALYZING cycle past the budget: step 8 is
terminal and absorbing) and emits exactly the aggregated report, whose
`success` is `true` iff at least one of the fetches succeeded (with an
all-failing oracle the run ends in ERROR with `success = false`,
cf. `C8_budget_counterexample`). -/
theorem C8_budget_amended (cfg : OrchConfig) (hm : cfg.maxIter = 2)
    (hp : ∀ e, ∃ ns, cfg.planner e = .fetchSignals ns) :
    (∀ n, (orchTrace cfg n).phase = .analyzing ↔ (n = 3 ∨ n = 6)) ∧
    (orchTrace cfg 7).phase = .finalizing ∧
    (∀ n, 8 ≤ n → orchTrace cfg n = orchTrace cfg 8) ∧
    (orchTrace cfg 8).report = some (mkReport (orchTrace cfg 7).evidence) ∧
    ((mkReport (orchTrace cfg 7).evidence).success = true ↔
      ∃ r ∈ (orchTrace cfg 7).evidence, r.fetched_ok = true) := by
  obtain ⟨ns1, hns1⟩ := hp []
  have h0 : orchTrace cfg 0 = ⟨.init, 0, [], [], [], none⟩ := rfl
  have h1 : orchTrace cfg 1 = ⟨.planning, 0, [], [], [], none⟩ := rfl
  have h2 : orchTrace cfg 2 = ⟨.fetching, 0, ns1, [], [], none⟩ := by
    rw [orchTrace_succ, h1]
    simp [orchStep, hm, hns1]
  have h3 : orchTrace cfg 3
      = ⟨.analyzing, 0, [], ns1.map (fun nm => (nm, cfg.oracle nm)), [], none⟩ := by
    rw [orchTrace_succ, h2]
    rfl
  have h4 : orchTrace cfg 4 = ⟨.planning, 1, [], [], fetchRecs cfg ns1, none⟩ := by
    rw [orchTrace_succ, h3]
    simp [orchStep, hm, fetchRecs]
  obtain ⟨ns2, hns2⟩ := hp (fetchRecs cfg ns1)
  have h5 : orchTrace cfg 5
      = ⟨.fetching, 1, ns2, [], fetchRecs cfg ns1, none⟩ := by
    rw [orchTrace_succ, h4]
    simp [orchStep, hm, hns2]
  have h6 : orchTrace cfg 6
      = ⟨.analyzing, 1, [], ns2.map (fun nm => (nm, cfg.oracle nm)),
         fetchRecs cfg ns1, none⟩ := by
    rw [orchTrace_succ, h5]
    rfl
  have h7 : orchTrace cfg 7
      = ⟨.finalizing, 2, [], [], fetchRecs cfg ns1 ++ fetchRecs cfg ns2, none⟩ := by
    rw [orchTrace_succ, h6]
    simp [orchStep, hm, fetchRecs]
  have h8t : Terminal (orchTrace cfg 8) := by
    rw [orchTrace_succ]
    exact orchStep_finalizing_terminal cfg _ (by rw [h7])
  have h8r : (orchTrace cfg 8).report
      = some (mkReport (fetchRecs cfg ns1 ++ fetchRecs cfg ns2)) := by
    rw [orchTrace_succ, h7]
    rfl
  have habs : ∀ n, 8 ≤ n → orchTrace cfg n = orchTrace cfg 8 := by
    have habs' : ∀ k, orchTrace cfg (8 + k) = orchTrace cfg 8 := by
      intro k
      induction k with
      | zero => rfl
      | succ k ih =>
          have e : 8 + (k + 1) = (8 + k) + 1 := rfl
          rw [e, orchTrace_succ, ih, orchStep_absorb cfg _ h8t]
    intro n hn
    have e : n = 8 + (n - 8) := by omega
    rw [e, habs']
  refine ⟨?_, by rw [h7], habs, by rw [h7]; exact h8r, ?_⟩
  · intro n
    rcases Nat.lt_or_ge n 8 with hlt | hge
    · interval_cases n <;> simp [h0, h1, h2, h3, h4, h5, h6, h7]
    · rw [habs n hge]
      rcases h8t with hph | hph <;> rw [hph] <;> simp <;> omega
  · simp [mkReport, List.any_eq_true]

/-- C8 witness: the amended statement applied to the concrete
configuration `cfgOk`, whose two fetches both succeed. -/
theorem C8_budget_amended_witness :
    (orchTrace cfgOk 3).phase = .analyzing ∧
    (orchTrace cfgOk 7).phase = .finalizing := by
  obtain ⟨hiff, hfin, _, _, _⟩ :=
    C8_budget_amended cfgOk rfl (fun e => ⟨["s"], rfl⟩)
  exact ⟨(hiff 3).mpr (Or.inl rfl), hfin⟩

/-- C9 witness: the per-phase conjuncts of `C9_failure_isolation` applied
at concrete inputs. -/
theorem C9_failure_isolation_witness :
    (orchStep cfgFail ⟨.fetching, 0, ["a"], [], [], none⟩).phase = .analyzing ∧
    ((mkReport []).success = false ↔
      ∀ r ∈ ([] : List EvidenceRecord), r.fetched_ok = false) :=
  ⟨(C9_failure_isolation cfgFail).2.1 _ rfl,
   ((C9_failure_isolation cfgFail).2.2.2 []).1⟩
